import Mathlib

/-!
# rosco_m68k driver: boot-vector overlay, address map, vector map, DUART output port

A shallow embedding of `src/rosco_m68k.cpp`.

* 16-bit words (`uint16_t`) are natural numbers, stores truncate with `% 65536`.
* The operand of `~` is promoted to `int`; its bit pattern is a natural number below `2^32`.
* `m_sysrom` is a pointer that is null, the base of the "monitor" region, or `&m_sysram[0]`.
* Reads through `m_sysrom` return `Option`: `none` is a read the C++ leaves undefined
  (null pointer, index outside the pointed-to buffer).
-/

namespace RoscoM68k

/-! ## Data model -/

/-- Peripheral input pins that the driver calls directly or binds to the DUART output port. -/
inductive Sink where
  | terminal_write_rts
  | host_write_rts
  | sdcard_spi_ss_w
  | sdcard_spi_clock_w
  | sdcard_spi_mosi_w
  deriving DecidableEq, Repr

/-- The three values `m_sysrom` takes: `nullptr` (member initialiser), the base of
`memregion("monitor")`, and `&m_sysram[0]`. -/
inductive Ptr where
  | null
  | monitor
  | sysram
  deriving DecidableEq, Repr

/-- Number of 16-bit words of the "monitor" region: `ROM_REGION16_BE(0x100000, "monitor", 0)`. -/
def monitor_words : Nat := 0x100000 / 2

/-- The low line level passed to `spi_clock_w` in `machine_reset` (`CLEAR_LINE`). -/
def CLEAR_LINE : Bool := false

/-- The members of `rosco_m68k_state` that the boot-vector handlers touch, the contents of
the "monitor" region (as 16-bit words), and the calls made on peripheral pins. -/
structure rosco_m68k_state where
  monitor : Nat → Nat
  m_sysrom : Ptr
  m_sysram : Fin 8 → Nat
  pin_calls : List (Sink × Bool)

/-- Truncation of an `int` result when it is stored back into a `uint16_t`. -/
def to_u16 (x : Nat) : Nat := x % 65536

/-- Bit pattern of `~x` for a `uint16_t` operand `x` promoted to 32-bit `int`. -/
def not_int (x : Nat) : Nat := (2 ^ 32 - 1 - x) % 2 ^ 32

/-- The state after construction: `m_sysrom = nullptr`, `m_sysram[8]{}` (all zero). -/
def construct (monitor : Nat → Nat) : rosco_m68k_state :=
  { monitor := monitor, m_sysrom := Ptr.null, m_sysram := fun _ => 0, pin_calls := [] }

/-! ## Operations -/

/-- `machine_start`: point `m_sysrom` at the base of the "monitor" region. -/
def machine_start (s : rosco_m68k_state) : rosco_m68k_state :=
  { s with m_sysrom := Ptr.monitor }

/-- `machine_reset`: clear the SD card clock line, and point `m_sysrom` back at the
"monitor" region when it points at `m_sysram`. -/
def machine_reset (s : rosco_m68k_state) : rosco_m68k_state :=
  let s1 := { s with pin_calls := s.pin_calls ++ [(Sink.sdcard_spi_clock_w, CLEAR_LINE)] }
  if s1.m_sysrom = Ptr.sysram then { s1 with m_sysrom := Ptr.monitor } else s1

/-- `bootvect_r`: `return m_sysrom[offset]`. -/
def bootvect_r (s : rosco_m68k_state) (offset : Nat) : Option Nat :=
  match s.m_sysrom with
  | Ptr.null => none
  | Ptr.monitor => if offset < monitor_words then some (s.monitor offset) else none
  | Ptr.sysram => if h : offset < 8 then some (s.m_sysram ⟨offset, h⟩) else none

/-- Index `offset % std::size(m_sysram)` into the eight-word buffer. -/
def sysram_index (offset : Nat) : Fin 8 := ⟨offset % 8, Nat.mod_lt _ (by decide)⟩

/-- `bootvect_w`: the two read-modify-write statements on `m_sysram[offset % 8]`, then
`m_sysrom = &m_sysram[0]`. -/
def bootvect_w (s : rosco_m68k_state) (offset data mem_mask : Nat) : rosco_m68k_state :=
  let i := sysram_index offset
  let ram1 := Function.update s.m_sysram i (to_u16 (s.m_sysram i &&& not_int mem_mask))
  let ram2 := Function.update ram1 i (to_u16 (ram1 i ||| (data &&& mem_mask)))
  { s with m_sysram := ram2, m_sysrom := Ptr.sysram }

/-- One access to the boot-vector overlay or a machine reset, as the emulated machine
delivers them to the driver. -/
inductive Access where
  | read (offset : Nat)
  | write (offset data mem_mask : Nat)
  | reset

/-- Effect of one access on the driver state; `bootvect_r` only returns a value and leaves
every member as it was. -/
def step (s : rosco_m68k_state) : Access → rosco_m68k_state
  | Access.read _ => s
  | Access.write offset data mem_mask => bootvect_w s offset data mem_mask
  | Access.reset => machine_reset s

/-- Effect of a sequence of accesses, in order. -/
def run (s : rosco_m68k_state) (accesses : List Access) : rosco_m68k_state :=
  accesses.foldl step s

/-- The arguments of one `bootvect_w` call. -/
structure OverlayWrite where
  offset : Nat
  data : Nat
  mem_mask : Nat
  deriving DecidableEq, Repr

/-- A sequence of `bootvect_w` calls with nothing in between. -/
def write_all (s : rosco_m68k_state) (ws : List OverlayWrite) : rosco_m68k_state :=
  ws.foldl (fun t w => bootvect_w t w.offset w.data w.mem_mask) s

/-- Every `uint16_t` element of `m_sysram` holds a 16-bit value. -/
def words_16bit (ram : Fin 8 → Nat) : Prop := ∀ i, ram i < 65536

/-- The arguments of a `bootvect_w` call are `uint16_t` values. -/
def args_16bit (w : OverlayWrite) : Prop := w.data < 65536 ∧ w.mem_mask < 65536

/-! ### The masked write as the specification words it -/

/-- Specification of the masked word: `(old AND NOT m) OR (d AND m)` on 16 bits. -/
def masked_word (old d m : Nat) : Nat := (old &&& (65535 ^^^ m)) ||| (d &&& m)

/-- Specification of one masked write on the shadow contents: the word at `offset mod 8`
is replaced by the masked word, the other seven stay. -/
def spec_write (ram : Fin 8 → Nat) (w : OverlayWrite) : Fin 8 → Nat :=
  fun j => if j.val = w.offset % 8 then masked_word (ram j) w.data w.mem_mask else ram j

/-- Specification of a sequence of masked writes applied in order. -/
def spec_writes (ram : Fin 8 → Nat) (ws : List OverlayWrite) : Fin 8 → Nat :=
  ws.foldl spec_write ram

/-! ## Address maps -/

/-- What a `mem_map` entry is bound to. -/
inductive Region where
  | bootvect_ram_w
  | bootvect_rom_r
  | main_ram
  | monitor_rom
  | duart
  | ata_cs0
  | ata_cs1
  deriving DecidableEq, Repr

/-- What a `cpu_space_map` entry is bound to. -/
inductive CpuSpaceHandler where
  | autovectors_map
  | duart_get_irq_vector
  deriving DecidableEq, Repr

/-- One `map(start, end)` entry with its binding. -/
structure map_entry (H : Type) where
  addrstart : Nat
  addrend : Nat
  handler : H
  deriving DecidableEq, Repr

/-- An address map under construction: the value of unmapped reads and the entries in
declaration order. -/
structure address_map (H : Type) where
  unmapval : Nat
  entries : List (map_entry H)

/-- A fresh map: unmapped value zero, no entries. -/
def address_map.empty (H : Type) : address_map H := { unmapval := 0, entries := [] }

/-- The call `map.unmap_value_high()`: unmapped reads give all ones on the 16-bit data bus. -/
def address_map.unmap_value_high {H : Type} (m : address_map H) : address_map H :=
  { m with unmapval := 0xffff }

/-- The call `map(start, end)` bound to `h`: append one entry. -/
def address_map.add {H : Type} (m : address_map H) (addrstart addrend : Nat) (h : H) :
    address_map H :=
  { m with entries := m.entries ++ [{ addrstart := addrstart, addrend := addrend, handler := h }] }

/-- `mem_map`: the program address space. -/
def mem_map (map : address_map Region) : address_map Region :=
  ((((((map.unmap_value_high.add 0x000000 0x00000f Region.bootvect_ram_w).add
    0x000000 0x00000f Region.bootvect_rom_r).add
    0x000010 0x0fffff Region.main_ram).add
    0xe00000 0xefffff Region.monitor_rom).add
    0xf00000 0xf0001f Region.duart).add
    0xf80040 0xf8004f Region.ata_cs0).add
    0xf80050 0xf8005f Region.ata_cs1

/-- `cpu_space_map`: the CPU space used for vector fetches. -/
def cpu_space_map (map : address_map CpuSpaceHandler) : address_map CpuSpaceHandler :=
  (map.add 0xfffff0 0xffffff CpuSpaceHandler.autovectors_map).add
    0xfffff9 0xfffff9 CpuSpaceHandler.duart_get_irq_vector

/-- The entries of a map whose range contains the address, in declaration order. -/
def lookup {H : Type} (m : address_map H) (address : Nat) : List (map_entry H) :=
  m.entries.filter (fun e => decide (e.addrstart ≤ address ∧ address ≤ e.addrend))

/-- The program map as the machine configuration installs it (`set_addrmap(AS_PROGRAM, ...)`). -/
def program_map : address_map Region := mem_map (address_map.empty Region)

/-- The CPU-space map as the machine configuration installs it. -/
def vector_map : address_map CpuSpaceHandler := cpu_space_map (address_map.empty CpuSpaceHandler)

/-- Modelled from the spec: the address router's read dispatch, which belongs to the
emulation framework and is not part of the driver source. An access outside all declared
regions returns the map's default value and does not fail; an access inside a region is
served by that region's backing store `serve`. -/
def router_read (m : address_map Region) (serve : List (map_entry Region) → Nat → Option Nat)
    (address : Nat) : Option Nat :=
  match lookup m address with
  | [] => some m.unmapval
  | e :: es => serve (e :: es) address

/-- Answer to a vector fetch: a vector number supplied by the serial controller, a
delegation to the autovector table of the CPU, or a spurious fetch. -/
inductive VectorAnswer where
  | device_vector (vector : Nat)
  | cpu_autovector (address : Nat)
  | spurious
  deriving DecidableEq, Repr

/-- Modelled from the spec: the interrupt vector resolver, whose dispatch belongs to the
emulation framework and is not part of the driver source. A fetch at the device-vector
address (the address bound to `get_irq_vector`) returns the pending vector of the serial
controller; a fetch elsewhere in the autovector sub-range is delegated to the autovector
table of the CPU; any other fetch is spurious. -/
def resolve_vector (m : address_map CpuSpaceHandler) (duart_pending_vector : Nat)
    (address : Nat) : VectorAnswer :=
  if (lookup m address).any (fun e => decide (e.handler = CpuSpaceHandler.duart_get_irq_vector))
  then VectorAnswer.device_vector duart_pending_vector
  else if (lookup m address).any (fun e => decide (e.handler = CpuSpaceHandler.autovectors_map))
  then VectorAnswer.cpu_autovector address
  else VectorAnswer.spurious

/-- Modelled from the spec: the CPU input line constant `M68K_IRQ_4`, declared by the CPU
core and not in the driver source: interrupt priority level 4. -/
def M68K_IRQ_4 : Nat := 4

/-- Modelled from the spec: the interrupt-acknowledge (vector fetch) address the CPU core
issues for a priority level, `0xFFFFF1 + 2 * level`; the CPU core is not in the driver
source. -/
def iack_address (level : Nat) : Nat := 0xfffff1 + 2 * level

/-! ## Machine configuration -/

/-- One handler bound to the DUART output port: the sink, the bit it takes
(`.bit(n)`) and whether the level is inverted (`.invert()`). -/
structure binding where
  sink : Sink
  bit : Nat
  invert : Bool
  deriving DecidableEq, Repr

/-- The wiring that `rosco_m68k(machine_config &)` builds. -/
structure machine_config where
  outport_cb : List binding
  duart_irq_line : Option Nat
  ata_irq_line : Option Nat

/-- `outport_cb().set(...)`: the handler becomes the only one bound. -/
def machine_config.outport_set (c : machine_config) (b : binding) : machine_config :=
  { c with outport_cb := [b] }

/-- `outport_cb().append(...)`: the handler is added after those bound before. -/
def machine_config.outport_append (c : machine_config) (b : binding) : machine_config :=
  { c with outport_cb := c.outport_cb ++ [b] }

/-- `rosco_m68k(machine_config &config)`: the statements that bind the DUART output port
and the two interrupt lines, in source order. -/
def rosco_m68k (config : machine_config) : machine_config :=
  let c1 := { config with duart_irq_line := some M68K_IRQ_4 }
  let c2 := c1.outport_set { sink := Sink.terminal_write_rts, bit := 0, invert := false }
  let c3 := c2.outport_append { sink := Sink.host_write_rts, bit := 1, invert := false }
  let c4 := c3.outport_append { sink := Sink.sdcard_spi_ss_w, bit := 2, invert := true }
  let c5 := c4.outport_append { sink := Sink.sdcard_spi_clock_w, bit := 4, invert := false }
  let c6 := c5.outport_append { sink := Sink.sdcard_spi_mosi_w, bit := 6, invert := false }
  { c6 with ata_irq_line := some M68K_IRQ_4 }

/-- The machine as assembled from an unwired configuration. -/
def machine : machine_config :=
  rosco_m68k { outport_cb := [], duart_irq_line := none, ata_irq_line := none }

/-- The 8-bit output port of the serial controller. -/
structure GPIOPort where
  bits : Fin 8 → Bool

/-- Modelled from the spec: `set_output_bit(index, value)` of the GPIO interconnect, whose
dispatch belongs to the emulation framework and is not part of the driver source. It
updates the named output bit and, for every sink bound to that bit, in registration
order, propagates the (possibly inverted) new level to the sink. -/
def set_output_bit (c : machine_config) (port : GPIOPort) (index : Fin 8) (value : Bool) :
    GPIOPort × List (Sink × Bool) :=
  ({ bits := Function.update port.bits index value },
   (c.outport_cb.filter (fun b => decide (b.bit = index.val))).map
     (fun b => (b.sink, if b.invert then !value else value)))

/-! ## Bit-level lemmas -/

theorem testBit_not_int (m i : Nat) (hm : m < 2 ^ 32) :
    (not_int m).testBit i = (decide (i < 32) && !m.testBit i) := by
  have h1 : 2 ^ 32 - 1 - m = 2 ^ 32 - (m + 1) := by omega
  have h2 : 2 ^ 32 - (m + 1) < 2 ^ 32 := by omega
  unfold not_int
  rw [h1, Nat.mod_eq_of_lt h2, Nat.testBit_two_pow_sub_succ hm]

theorem testBit_of_u16_of_ge (x i : Nat) (hx : x < 65536) (hi : 16 ≤ i) :
    x.testBit i = false := by
  apply Nat.testBit_lt_two_pow
  calc x < 2 ^ 16 := by simpa using hx
    _ ≤ 2 ^ i := Nat.pow_le_pow_right (by decide) hi

theorem testBit_u16_ones (i : Nat) : (65535 : Nat).testBit i = decide (i < 16) := by
  have h : (65535 : Nat) = 2 ^ 16 - 1 := by norm_num
  rw [h, Nat.testBit_two_pow_sub_one]

/-- Bits of the word stored by the two statements of `bootvect_w`. -/
theorem testBit_stored (old d m i : Nat) (hm : m < 65536) :
    (to_u16 (to_u16 (old &&& not_int m) ||| (d &&& m))).testBit i
      = (decide (i < 16) && ((old.testBit i && !m.testBit i) || (d.testBit i && m.testBit i))) := by
  have hm32 : m < 2 ^ 32 := by omega
  have e : (65536 : Nat) = 2 ^ 16 := by norm_num
  unfold to_u16
  rw [e]
  simp only [Nat.testBit_mod_two_pow, Nat.testBit_or, Nat.testBit_and, testBit_not_int m i hm32]
  by_cases h16 : i < 16
  · have h32 : i < 32 := by omega
    simp [h16, h32]
  · simp [h16]

/-- The stored word is the 16-bit `(old AND NOT m) OR (d AND m)`. -/
theorem stored_eq (old d m : Nat) (ho : old < 65536) (hd : d < 65536) (hm : m < 65536) :
    to_u16 (to_u16 (old &&& not_int m) ||| (d &&& m)) = (old &&& (65535 ^^^ m)) ||| (d &&& m) := by
  apply Nat.eq_of_testBit_eq
  intro i
  rw [testBit_stored old d m i hm]
  simp only [Nat.testBit_or, Nat.testBit_and, Nat.testBit_xor, testBit_u16_ones]
  by_cases h16 : i < 16
  · simp [h16]
  · have hi : 16 ≤ i := by omega
    simp [h16, testBit_of_u16_of_ge old i ho hi, testBit_of_u16_of_ge d i hd hi]

theorem stored_lt (x : Nat) : to_u16 x < 65536 := by
  unfold to_u16
  omega

/-! ## Lemmas on the boot-vector handlers -/

theorem bootvect_w_sysrom (s : rosco_m68k_state) (o d m : Nat) :
    (bootvect_w s o d m).m_sysrom = Ptr.sysram := rfl

theorem bootvect_w_monitor (s : rosco_m68k_state) (o d m : Nat) :
    (bootvect_w s o d m).monitor = s.monitor := rfl

theorem bootvect_w_at (s : rosco_m68k_state) (o d m : Nat) :
    (bootvect_w s o d m).m_sysram (sysram_index o)
      = to_u16 (to_u16 (s.m_sysram (sysram_index o) &&& not_int m) ||| (d &&& m)) := by
  simp [bootvect_w]

theorem bootvect_w_other (s : rosco_m68k_state) (o d m : Nat) (j : Fin 8)
    (hj : j ≠ sysram_index o) : (bootvect_w s o d m).m_sysram j = s.m_sysram j := by
  simp [bootvect_w, Function.update_noteq hj]

theorem index_eq_iff (o : Nat) (j : Fin 8) : j = sysram_index o ↔ j.val = o % 8 := by
  constructor
  · intro h
    rw [h]
    rfl
  · intro h
    exact Fin.ext h

theorem bootvect_w_words_16bit (s : rosco_m68k_state) (o d m : Nat)
    (hs : words_16bit s.m_sysram) : words_16bit (bootvect_w s o d m).m_sysram := by
  intro j
  by_cases hj : j = sysram_index o
  · rw [hj, bootvect_w_at]
    exact stored_lt _
  · rw [bootvect_w_other s o d m j hj]
    exact hs j

theorem bootvect_w_spec (s : rosco_m68k_state) (w : OverlayWrite)
    (hs : words_16bit s.m_sysram) (hw : args_16bit w) :
    (bootvect_w s w.offset w.data w.mem_mask).m_sysram = spec_write s.m_sysram w := by
  funext j
  unfold spec_write
  by_cases hj : j = sysram_index w.offset
  · have hv : j.val = w.offset % 8 := (index_eq_iff _ _).1 hj
    rw [if_pos hv, hj, bootvect_w_at]
    exact stored_eq _ _ _ (hs _) hw.1 hw.2
  · have hv : ¬ j.val = w.offset % 8 := fun h => hj ((index_eq_iff _ _).2 h)
    rw [if_neg hv, bootvect_w_other s _ _ _ j hj]

theorem write_all_spec (ws : List OverlayWrite) :
    ∀ s : rosco_m68k_state, words_16bit s.m_sysram → (∀ w ∈ ws, args_16bit w) →
      (write_all s ws).m_sysram = spec_writes s.m_sysram ws := by
  induction ws with
  | nil => intro s _ _; rfl
  | cons w rest ih =>
    intro s hs hw
    have hw1 : args_16bit w := hw w (List.mem_cons_self _ _)
    have hrest : ∀ x ∈ rest, args_16bit x := fun x hx => hw x (List.mem_cons_of_mem _ hx)
    have h1 := ih (bootvect_w s w.offset w.data w.mem_mask)
      (bootvect_w_words_16bit s _ _ _ hs) hrest
    simp only [write_all, spec_writes, List.foldl_cons] at h1 ⊢
    rw [h1, bootvect_w_spec s w hs hw1]

theorem write_all_sysrom (ws : List OverlayWrite) :
    ∀ s : rosco_m68k_state, ws ≠ [] → (write_all s ws).m_sysrom = Ptr.sysram := by
  induction ws with
  | nil => intro s h; exact absurd rfl h
  | cons w rest ih =>
    intro s _
    by_cases hr : rest = []
    · subst hr
      rfl
    · exact ih (bootvect_w s w.offset w.data w.mem_mask) hr

theorem bootvect_r_sysram (s : rosco_m68k_state) (o : Nat) (ho : o < 8)
    (hp : s.m_sysrom = Ptr.sysram) : bootvect_r s o = some (s.m_sysram ⟨o, ho⟩) := by
  simp [bootvect_r, hp, ho]

theorem bootvect_r_monitor (s : rosco_m68k_state) (o : Nat) (ho : o < 8)
    (hp : s.m_sysrom = Ptr.monitor) : bootvect_r s o = some (s.monitor o) := by
  have h : o < monitor_words := by
    unfold monitor_words
    omega
  simp [bootvect_r, hp, h]

theorem machine_reset_sysram (s : rosco_m68k_state) :
    (machine_reset s).m_sysram = s.m_sysram := by
  unfold machine_reset
  by_cases h : s.m_sysrom = Ptr.sysram <;> simp [h]

theorem machine_reset_monitor (s : rosco_m68k_state) :
    (machine_reset s).monitor = s.monitor := by
  unfold machine_reset
  by_cases h : s.m_sysrom = Ptr.sysram <;> simp [h]

theorem machine_reset_sysrom (s : rosco_m68k_state) (hn : s.m_sysrom ≠ Ptr.null) :
    (machine_reset s).m_sysrom = Ptr.monitor := by
  unfold machine_reset
  by_cases h : s.m_sysrom = Ptr.sysram
  · simp [h]
  · cases hp : s.m_sysrom with
    | null => exact absurd hp hn
    | monitor => simp [hp]
    | sysram => exact absurd hp h

theorem step_invariant (s : rosco_m68k_state) (a : Access) (hn : s.m_sysrom ≠ Ptr.null) :
    (step s a).m_sysrom ≠ Ptr.null ∧ (step s a).monitor = s.monitor := by
  cases a with
  | read o => exact ⟨hn, rfl⟩
  | write o d m => exact ⟨by rw [step, bootvect_w_sysrom]; decide, rfl⟩
  | reset => exact ⟨by rw [step, machine_reset_sysrom s hn]; decide, machine_reset_monitor s⟩

theorem run_invariant (accesses : List Access) :
    ∀ s : rosco_m68k_state, s.m_sysrom ≠ Ptr.null →
      (run s accesses).m_sysrom ≠ Ptr.null ∧ (run s accesses).monitor = s.monitor := by
  induction accesses with
  | nil => intro s hn; exact ⟨hn, rfl⟩
  | cons a rest ih =>
    intro s hn
    have h1 := step_invariant s a hn
    have h2 := ih (step s a) h1.1
    exact ⟨h2.1, h2.2.trans h1.2⟩

/-! ## Boot-vector overlay: the claims -/

/-- C1: for every state whose shadow words are 16-bit, every word offset `o`, 16-bit data
`d` and 16-bit mask `m`, after `bootvect_w(o, d, m)` the shadow word at index `o mod 8`
equals `(old AND NOT m) OR (d AND m)` and the other seven shadow words are unchanged; a
word holding 0x1234 written with data 0x00FF and mask 0x00FF becomes 0x12FF, and a write
with mask 0xFFFF leaves exactly `d`. -/
theorem bootvect_w_masks_addressed_word (s : rosco_m68k_state) (o d m : Nat)
    (hs : words_16bit s.m_sysram) (hd : d < 65536) (hm : m < 65536) :
    (∀ j : Fin 8, j.val = o % 8 →
        (bootvect_w s o d m).m_sysram j = (s.m_sysram j &&& (65535 ^^^ m)) ||| (d &&& m))
    ∧ (∀ j : Fin 8, j.val ≠ o % 8 → (bootvect_w s o d m).m_sysram j = s.m_sysram j)
    ∧ (∀ j : Fin 8, j.val = o % 8 → s.m_sysram j = 0x1234 → d = 0x00ff → m = 0x00ff →
        (bootvect_w s o d m).m_sysram j = 0x12ff)
    ∧ (∀ j : Fin 8, j.val = o % 8 → m = 0xffff → (bootvect_w s o d m).m_sysram j = d) := by
  have key : ∀ j : Fin 8, j.val = o % 8 →
      (bootvect_w s o d m).m_sysram j = (s.m_sysram j &&& (65535 ^^^ m)) ||| (d &&& m) := by
    intro j hj
    have hji : j = sysram_index o := (index_eq_iff o j).2 hj
    rw [hji, bootvect_w_at]
    exact stored_eq _ _ _ (hs _) hd hm
  refine ⟨key, ?_, ?_, ?_⟩
  · intro j hj
    exact bootvect_w_other s o d m j (fun h => hj ((index_eq_iff o j).1 h))
  · intro j hj hold hd1 hm1
    rw [key j hj, hold, hd1, hm1]
    decide
  · intro j hj hm1
    rw [key j hj, hm1]
    have h0 : (65535 : Nat) ^^^ 65535 = 0 := by decide
    rw [h0, Nat.and_zero, Nat.zero_or]
    apply Nat.eq_of_testBit_eq
    intro i
    rw [Nat.testBit_and, testBit_u16_ones]
    by_cases h16 : i < 16
    · simp [h16]
    · simp [h16, testBit_of_u16_of_ge d i hd (by omega)]

/-- Witness for C1: shadow word 0 holds 0x1234 and is written at offset 8 (index 0) with
data 0x00FF under mask 0x00FF. -/
theorem bootvect_w_masks_addressed_word_witness :
    (bootvect_w (bootvect_w (construct (fun _ => 0)) 0 0x1234 0xffff) 8 0x00ff 0x00ff).m_sysram 0
      = 0x12ff :=
  (bootvect_w_masks_addressed_word (bootvect_w (construct (fun _ => 0)) 0 0x1234 0xffff)
    8 0x00ff 0x00ff (by unfold words_16bit; decide) (by decide) (by decide)).2.2.1
    0 rfl (by decide) rfl rfl

/-- C2: for every overlay state (whatever `m_sysrom` points at) and every non-empty
sequence of overlay writes with no reset in between, `m_sysrom` points at the shadow RAM
after the sequence, a read `bootvect_r(o)` at a word offset `o < 8` returns shadow word
`o`, the shadow contents are those obtained by applying the masked writes in order to the
prior contents, and the read that follows the first write already returns the shadow word. -/
theorem writes_switch_overlay_to_shadow_ram (s : rosco_m68k_state) (ws : List OverlayWrite)
    (o : Nat) (hne : ws ≠ []) (hs : words_16bit s.m_sysram) (hw : ∀ w ∈ ws, args_16bit w)
    (ho : o < 8) :
    (write_all s ws).m_sysrom = Ptr.sysram
    ∧ bootvect_r (write_all s ws) o = some (spec_writes s.m_sysram ws ⟨o, ho⟩)
    ∧ (∀ w rest, ws = w :: rest →
        (bootvect_w s w.offset w.data w.mem_mask).m_sysrom = Ptr.sysram
        ∧ bootvect_r (bootvect_w s w.offset w.data w.mem_mask) o
            = some (spec_write s.m_sysram w ⟨o, ho⟩)) := by
  have hp := write_all_sysrom ws s hne
  refine ⟨hp, ?_, ?_⟩
  · rw [bootvect_r_sysram _ o ho hp, write_all_spec ws s hs hw]
  · intro w rest hws
    have hw1 : args_16bit w := hw w (by rw [hws]; exact List.mem_cons_self _ _)
    refine ⟨rfl, ?_⟩
    rw [bootvect_r_sysram _ o ho (bootvect_w_sysrom _ _ _ _), bootvect_w_spec s w hs hw1]

/-- Witness for C2: from the ROM-active state after `machine_start`, two writes to word 1. -/
theorem writes_switch_overlay_to_shadow_ram_witness :
    (write_all (machine_start (construct (fun _ => 0x4e71)))
        [⟨1, 0x1234, 0xffff⟩, ⟨9, 0x00ff, 0x00ff⟩]).m_sysrom = Ptr.sysram
    ∧ bootvect_r (write_all (machine_start (construct (fun _ => 0x4e71)))
        [⟨1, 0x1234, 0xffff⟩, ⟨9, 0x00ff, 0x00ff⟩]) 1
        = some (spec_writes (machine_start (construct (fun _ => 0x4e71))).m_sysram
            [⟨1, 0x1234, 0xffff⟩, ⟨9, 0x00ff, 0x00ff⟩] ⟨1, by decide⟩)
    ∧ spec_writes (machine_start (construct (fun _ => 0x4e71))).m_sysram
            [⟨1, 0x1234, 0xffff⟩, ⟨9, 0x00ff, 0x00ff⟩] ⟨1, by decide⟩ = 0x12ff :=
  have h := writes_switch_overlay_to_shadow_ram (machine_start (construct (fun _ => 0x4e71)))
    [⟨1, 0x1234, 0xffff⟩, ⟨9, 0x00ff, 0x00ff⟩] 1 (by simp) (fun _ => show (0 : Nat) < 65536 by decide)
    (by
      intro w hw
      simp only [List.mem_cons, List.mem_singleton, List.not_mem_nil, or_false] at hw
      rcases hw with h | h <;> subst h <;> exact ⟨by decide, by decide⟩)
    (by decide)
  ⟨h.1, h.2.1, by decide⟩

/-- C3: for every state reached after `machine_start` by any sequence of overlay reads,
overlay writes and resets, `machine_reset` leaves `m_sysrom` pointing at the ROM image,
whether it pointed at the ROM image or at the shadow RAM before, so the next read
`bootvect_r(o)` for every word offset `o < 8` returns word `o` of the ROM image. -/
theorem machine_reset_restores_rom (s0 : rosco_m68k_state) (accesses : List Access) (o : Nat)
    (ho : o < 8) :
    (machine_reset (run (machine_start s0) accesses)).m_sysrom = Ptr.monitor
    ∧ bootvect_r (machine_reset (run (machine_start s0) accesses)) o = some (s0.monitor o) := by
  have hstart : (machine_start s0).m_sysrom ≠ Ptr.null := by
    unfold machine_start
    simp
  have hinv := run_invariant accesses (machine_start s0) hstart
  have hp := machine_reset_sysrom _ hinv.1
  refine ⟨hp, ?_⟩
  rw [bootvect_r_monitor _ o ho hp, machine_reset_monitor, hinv.2]
  rfl

/-- Witness for C3: a write, a read and a reset followed by another write, then the reset. -/
theorem machine_reset_restores_rom_witness :
    (machine_reset (run (machine_start (construct (fun a => a + 0x100)))
        [Access.write 0 0xdead 0xffff, Access.read 0, Access.reset,
         Access.write 2 0xbeef 0xff00])).m_sysrom = Ptr.monitor
    ∧ bootvect_r (machine_reset (run (machine_start (construct (fun a => a + 0x100)))
        [Access.write 0 0xdead 0xffff, Access.read 0, Access.reset,
         Access.write 2 0xbeef 0xff00])) 0
        = some ((construct (fun a => a + 0x100)).monitor 0) :=
  machine_reset_restores_rom (construct (fun a => a + 0x100))
    [Access.write 0 0xdead 0xffff, Access.read 0, Access.reset, Access.write 2 0xbeef 0xff00]
    0 (by decide)

/-- C4: `machine_reset` changes none of the eight shadow RAM words: for every RAM-active
state, after `machine_reset` (which makes the overlay ROM-active) followed by one overlay
write at offset `o` with mask `m`, a read of any word `j < 8` other than `o mod 8` returns
the value that word held before the reset, and the bits of word `o mod 8` outside `m` are
those it held before the reset. -/
theorem machine_reset_keeps_shadow_ram (s : rosco_m68k_state) (o d m j : Nat)
    (hp : s.m_sysrom = Ptr.sysram) (hm : m < 65536) (hj : j < 8) :
    (machine_reset s).m_sysram = s.m_sysram
    ∧ (machine_reset s).m_sysrom = Ptr.monitor
    ∧ (j ≠ o % 8 →
        bootvect_r (bootvect_w (machine_reset s) o d m) j = some (s.m_sysram ⟨j, hj⟩))
    ∧ (∃ w, bootvect_r (bootvect_w (machine_reset s) o d m) (o % 8) = some w
        ∧ ∀ k, k < 16 → m.testBit k = false →
            w.testBit k = (s.m_sysram (sysram_index o)).testBit k) := by
  have hnull : s.m_sysrom ≠ Ptr.null := by
    rw [hp]
    decide
  refine ⟨machine_reset_sysram s, machine_reset_sysrom s hnull, ?_, ?_⟩
  · intro hne
    rw [bootvect_r_sysram _ j hj (bootvect_w_sysrom _ _ _ _)]
    have hidx : (⟨j, hj⟩ : Fin 8) ≠ sysram_index o :=
      fun h => hne ((index_eq_iff o ⟨j, hj⟩).1 h)
    rw [bootvect_w_other _ o d m _ hidx, machine_reset_sysram]
  · have ho : o % 8 < 8 := Nat.mod_lt _ (by decide)
    refine ⟨(bootvect_w (machine_reset s) o d m).m_sysram ⟨o % 8, ho⟩, ?_, ?_⟩
    · exact bootvect_r_sysram _ (o % 8) ho (bootvect_w_sysrom _ _ _ _)
    · intro k hk hbit
      have hidx : (⟨o % 8, ho⟩ : Fin 8) = sysram_index o := rfl
      rw [hidx, bootvect_w_at, testBit_stored _ d m k hm, machine_reset_sysram, hbit]
      simp [hk]

/-- Witness for C4: shadow word 5 holds 0xA5A5, word 2 is overwritten after the reset. -/
theorem machine_reset_keeps_shadow_ram_witness :
    (machine_reset (bootvect_w (construct (fun _ => 0)) 5 0xa5a5 0xffff)).m_sysrom = Ptr.monitor
    ∧ bootvect_r (bootvect_w (machine_reset (bootvect_w (construct (fun _ => 0)) 5 0xa5a5 0xffff))
        2 0x1111 0x00ff) 5 = some 0xa5a5 :=
  have h := machine_reset_keeps_shadow_ram (bootvect_w (construct (fun _ => 0)) 5 0xa5a5 0xffff)
    2 0x1111 0x00ff 5 rfl (by decide) (by decide)
  ⟨h.2.1, (h.2.2.1 (by decide)).trans (by decide)⟩

/-- C10: the shadow RAM is never seeded from the ROM image: from the state right after
`machine_start` (shadow RAM all zero, overlay ROM-active, so a read returns the ROM word),
after a single overlay write at word offset `i`, a read `bootvect_r(j)` at every other
word offset `j < 8` returns 0, for every ROM image, hence not the ROM word `j` when that
word is non-zero. -/
theorem shadow_ram_not_seeded_from_rom (monitor : Nat → Nat) (i d m j : Nat)
    (hj : j < 8) (hij : j ≠ i % 8) :
    bootvect_r (machine_start (construct monitor)) j = some (monitor j)
    ∧ bootvect_r (bootvect_w (machine_start (construct monitor)) i d m) j = some 0
    ∧ (monitor j ≠ 0 →
        bootvect_r (bootvect_w (machine_start (construct monitor)) i d m) j
          ≠ some (monitor j)) := by
  have hread : bootvect_r (bootvect_w (machine_start (construct monitor)) i d m) j = some 0 := by
    rw [bootvect_r_sysram _ j hj (bootvect_w_sysrom _ _ _ _)]
    have hidx : (⟨j, hj⟩ : Fin 8) ≠ sysram_index i :=
      fun h => hij ((index_eq_iff i ⟨j, hj⟩).1 h)
    rw [bootvect_w_other _ i d m _ hidx]
    rfl
  refine ⟨bootvect_r_monitor _ j hj rfl, hread, ?_⟩
  intro hne heq
  rw [hread] at heq
  exact hne (Option.some.inj heq).symm

/-- Witness for C10: a ROM image whose words are all 0x4E71, word 0 written, word 1 read. -/
theorem shadow_ram_not_seeded_from_rom_witness :
    bootvect_r (machine_start (construct (fun _ => 0x4e71))) 1 = some 0x4e71
    ∧ bootvect_r (bootvect_w (machine_start (construct (fun _ => 0x4e71))) 0 0x0004 0xffff) 1
        = some 0 :=
  have h := shadow_ram_not_seeded_from_rom (fun _ => 0x4e71) 0 0x0004 0xffff 1
    (by decide) (by decide)
  ⟨h.1, h.2.1⟩

/-! ## Address map: lemmas -/

theorem program_map_entries :
    program_map.entries =
      [⟨0x000000, 0x00000f, Region.bootvect_ram_w⟩, ⟨0x000000, 0x00000f, Region.bootvect_rom_r⟩,
       ⟨0x000010, 0x0fffff, Region.main_ram⟩, ⟨0xe00000, 0xefffff, Region.monitor_rom⟩,
       ⟨0xf00000, 0xf0001f, Region.duart⟩, ⟨0xf80040, 0xf8004f, Region.ata_cs0⟩,
       ⟨0xf80050, 0xf8005f, Region.ata_cs1⟩] := rfl

theorem program_map_unmapval : program_map.unmapval = 0xffff := rfl

theorem lookup_program_map_nil (a : Nat) (h0 : ¬ (a ≤ 0x00000f))
    (k5 : ¬ (0x000010 ≤ a ∧ a ≤ 0x0fffff)) (k1 : ¬ (0xe00000 ≤ a ∧ a ≤ 0xefffff))
    (k2 : ¬ (0xf00000 ≤ a ∧ a ≤ 0xf0001f)) (k3 : ¬ (0xf80040 ≤ a ∧ a ≤ 0xf8004f))
    (k4 : ¬ (0xf80050 ≤ a ∧ a ≤ 0xf8005f)) : lookup program_map a = [] := by
  unfold lookup
  rw [program_map_entries]
  simp only [List.filter]
  simp only [Nat.zero_le, true_and, decide_eq_false h0, decide_eq_false k1,
    decide_eq_false k2, decide_eq_false k3, decide_eq_false k4, decide_eq_false k5]

theorem lookup_program_map_gap (b : Nat) (h1 : 0x100000 ≤ b) (h2 : b ≤ 0xdfffff) :
    lookup program_map b = [] :=
  lookup_program_map_nil b (by omega) (by omega) (by omega) (by omega) (by omega) (by omega)

theorem lookup_program_map_above (a : Nat) (h : 0xf80060 ≤ a) : lookup program_map a = [] :=
  lookup_program_map_nil a (by omega) (by omega) (by omega) (by omega) (by omega) (by omega)

theorem lookup_program_map_cases (a : Nat) :
    lookup program_map a = []
    ∨ (∃ e, lookup program_map a = [e])
    ∨ (a ≤ 0x00000f ∧ lookup program_map a =
        [⟨0x000000, 0x00000f, Region.bootvect_ram_w⟩,
         ⟨0x000000, 0x00000f, Region.bootvect_rom_r⟩]) := by
  unfold lookup
  rw [program_map_entries]
  simp only [List.filter]
  by_cases h1 : a ≤ 0x00000f
  · have h2 : ¬ (0x000010 ≤ a) := by omega
    have h3 : ¬ (0xe00000 ≤ a) := by omega
    have h4 : ¬ (0xf00000 ≤ a) := by omega
    have h5 : ¬ (0xf80040 ≤ a) := by omega
    have h6 : ¬ (0xf80050 ≤ a) := by omega
    right; right
    simp [h1, h2, h3, h4, h5, h6]
  · have h0 : ¬ (a ≤ 0x00000f) := h1
    by_cases c1 : a ≤ 0x0fffff
    · right; left
      refine ⟨⟨0x000010, 0x0fffff, Region.main_ram⟩, ?_⟩
      have h2 : 0x000010 ≤ a := by omega
      have h3 : ¬ (0xe00000 ≤ a) := by omega
      have h4 : ¬ (0xf00000 ≤ a) := by omega
      have h5 : ¬ (0xf80040 ≤ a) := by omega
      have h6 : ¬ (0xf80050 ≤ a) := by omega
      simp [h0, c1, h2, h3, h4, h5, h6]
    · have h2 : 0x000010 ≤ a := by omega
      by_cases c2 : 0xe00000 ≤ a ∧ a ≤ 0xefffff
      · right; left
        refine ⟨⟨0xe00000, 0xefffff, Region.monitor_rom⟩, ?_⟩
        have h4 : ¬ (0xf00000 ≤ a) := by omega
        have h5 : ¬ (0xf80040 ≤ a) := by omega
        have h6 : ¬ (0xf80050 ≤ a) := by omega
        simp [h0, c1, h2, c2.1, c2.2, h4, h5, h6]
      · by_cases c3 : 0xf00000 ≤ a ∧ a ≤ 0xf0001f
        · right; left
          refine ⟨⟨0xf00000, 0xf0001f, Region.duart⟩, ?_⟩
          have h3 : 0xe00000 ≤ a := by omega
          have h4 : ¬ (a ≤ 0xefffff) := by omega
          have h5 : ¬ (0xf80040 ≤ a) := by omega
          have h6 : ¬ (0xf80050 ≤ a) := by omega
          simp [h0, c1, h2, h3, h4, c3.1, c3.2, h5, h6]
        · by_cases c4 : 0xf80040 ≤ a ∧ a ≤ 0xf8004f
          · right; left
            refine ⟨⟨0xf80040, 0xf8004f, Region.ata_cs0⟩, ?_⟩
            have h3 : 0xe00000 ≤ a := by omega
            have h4 : ¬ (a ≤ 0xefffff) := by omega
            have h5 : 0xf00000 ≤ a := by omega
            have h6 : ¬ (a ≤ 0xf0001f) := by omega
            have h7 : ¬ (0xf80050 ≤ a) := by omega
            simp [h0, c1, h2, h3, h4, h5, h6, c4.1, c4.2, h7]
          · by_cases c5 : 0xf80050 ≤ a ∧ a ≤ 0xf8005f
            · right; left
              refine ⟨⟨0xf80050, 0xf8005f, Region.ata_cs1⟩, ?_⟩
              have h3 : 0xe00000 ≤ a := by omega
              have h4 : ¬ (a ≤ 0xefffff) := by omega
              have h5 : 0xf00000 ≤ a := by omega
              have h6 : ¬ (a ≤ 0xf0001f) := by omega
              have h7 : 0xf80040 ≤ a := by omega
              have h8 : ¬ (a ≤ 0xf8004f) := by omega
              simp [h0, c1, h2, h3, h4, h5, h6, h7, h8, c5.1, c5.2]
            · left
              have k1 : ¬ (0xe00000 ≤ a ∧ a ≤ 0xefffff) := c2
              have k2 : ¬ (0xf00000 ≤ a ∧ a ≤ 0xf0001f) := c3
              have k3 : ¬ (0xf80040 ≤ a ∧ a ≤ 0xf8004f) := c4
              have k4 : ¬ (0xf80050 ≤ a ∧ a ≤ 0xf8005f) := c5
              have k5 : ¬ (0x000010 ≤ a ∧ a ≤ 0x0fffff) := by omega
              simp only [Nat.zero_le, true_and, decide_eq_false h0, decide_eq_false k1,
                decide_eq_false k2, decide_eq_false k3, decide_eq_false k4, decide_eq_false k5]

/-! ## Address map and vector map: the claims -/

/-- C5: in the region table declared by `mem_map`, an access at the last byte of main RAM
(0x0FFFFF) resolves to the main RAM entry and an access at the first byte of ROM
(0xE00000) resolves to the ROM entry, the two are different regions, every address lies in
no entry, in exactly one entry, or (for 0x000000-0x00000F only) in the two boot-overlay
entries, and an access one byte past the top of the 24-bit address space (0x1000000, and
any address above it) lies in no entry. -/
theorem region_table_boundaries (a : Nat) :
    lookup program_map 0x0fffff = [⟨0x000010, 0x0fffff, Region.main_ram⟩]
    ∧ lookup program_map 0xe00000 = [⟨0xe00000, 0xefffff, Region.monitor_rom⟩]
    ∧ lookup program_map 0x0fffff ≠ lookup program_map 0xe00000
    ∧ Region.main_ram ≠ Region.monitor_rom
    ∧ (lookup program_map a = []
        ∨ (∃ e, lookup program_map a = [e])
        ∨ (a ≤ 0x00000f ∧ lookup program_map a =
            [⟨0x000000, 0x00000f, Region.bootvect_ram_w⟩,
             ⟨0x000000, 0x00000f, Region.bootvect_rom_r⟩]))
    ∧ lookup program_map 0x1000000 = []
    ∧ (a < 0x1000000 ∨ lookup program_map a = []) := by
  refine ⟨by decide, by decide, by decide, by decide, lookup_program_map_cases a, by decide, ?_⟩
  by_cases h : a < 0x1000000
  · exact Or.inl h
  · exact Or.inr (lookup_program_map_above a (by omega))

/-- C6: for every address that lies in none of the regions declared by `mem_map` (for
example every address in 0x100000-0xDFFFFF), a read through the address router does not
fail and returns the all-ones default value 0xFFFF. -/
theorem unmapped_read_returns_all_ones
    (serve : List (map_entry Region) → Nat → Option Nat) (a : Nat)
    (h : lookup program_map a = []) :
    router_read program_map serve a = some 0xffff
    ∧ (∀ b, 0x100000 ≤ b → b ≤ 0xdfffff → router_read program_map serve b = some 0xffff) := by
  have key : ∀ x, lookup program_map x = [] → router_read program_map serve x = some 0xffff := by
    intro x hx
    unfold router_read
    rw [hx, program_map_unmapval]
  exact ⟨key a h, fun b h1 h2 => key b (lookup_program_map_gap b h1 h2)⟩

/-- Witness for C6: address 0x100000, the first byte after main RAM. -/
theorem unmapped_read_returns_all_ones_witness :
    lookup program_map 0x100000 = []
    ∧ router_read program_map (fun _ _ => none) 0x100000 = some 0xffff :=
  ⟨by decide, (unmapped_read_returns_all_ones (fun _ _ => none) 0x100000 (by decide)).1⟩

/-- C7: in the output-port wiring built by the machine configuration, for every level `v`:
a change of output bit 2 to `v` invokes the SPI chip-select sink exactly once, with the
inverted level, and no other sink; bits 0, 1, 4 and 6 each deliver `v` uninverted to
exactly one sink (RTS of the terminal port, RTS of the host port, SPI clock, SPI data-in);
a change of bit 3 or bit 5 invokes no sink. -/
theorem outport_wiring_fan_out (port : GPIOPort) (v : Bool) :
    (set_output_bit machine port 2 v).2 = [(Sink.sdcard_spi_ss_w, !v)]
    ∧ (set_output_bit machine port 0 v).2 = [(Sink.terminal_write_rts, v)]
    ∧ (set_output_bit machine port 1 v).2 = [(Sink.host_write_rts, v)]
    ∧ (set_output_bit machine port 4 v).2 = [(Sink.sdcard_spi_clock_w, v)]
    ∧ (set_output_bit machine port 6 v).2 = [(Sink.sdcard_spi_mosi_w, v)]
    ∧ (set_output_bit machine port 3 v).2 = []
    ∧ (set_output_bit machine port 5 v).2 = [] := by
  cases v <;> exact ⟨rfl, rfl, rfl, rfl, rfl, rfl, rfl⟩

theorem vector_map_entries :
    vector_map.entries =
      [⟨0xfffff0, 0xffffff, CpuSpaceHandler.autovectors_map⟩,
       ⟨0xfffff9, 0xfffff9, CpuSpaceHandler.duart_get_irq_vector⟩] := rfl

theorem resolve_vector_device (pending : Nat) :
    resolve_vector vector_map pending 0xfffff9 = VectorAnswer.device_vector pending := by
  unfold resolve_vector lookup
  rw [vector_map_entries]
  simp [List.filter]

theorem resolve_vector_autovector (pending a : Nat) (h1 : 0xfffff0 ≤ a) (h2 : a ≤ 0xffffff)
    (h3 : a ≠ 0xfffff9) :
    resolve_vector vector_map pending a = VectorAnswer.cpu_autovector a := by
  have k : ¬ (0xfffff9 ≤ a ∧ a ≤ 0xfffff9) := by omega
  have k0 : (0xfffff0 ≤ a ∧ a ≤ 0xffffff) := ⟨h1, h2⟩
  unfold resolve_vector lookup
  rw [vector_map_entries]
  simp only [List.filter, decide_eq_false k, decide_eq_true k0]
  simp

/-- C8: for every vector-fetch address `a` in the range of the CPU-space map: if `a` is the
device-vector address 0xFFFFF9 the resolver returns the pending vector of the serial
controller (`get_irq_vector`); if `a` is any other address of 0xFFFFF0-0xFFFFFF the
resolver delegates to the autovector table of the CPU. -/
theorem vector_fetch_resolution (pending a : Nat) (h1 : 0xfffff0 ≤ a) (h2 : a ≤ 0xffffff) :
    (a = 0xfffff9 → resolve_vector vector_map pending a = VectorAnswer.device_vector pending)
    ∧ (a ≠ 0xfffff9 → resolve_vector vector_map pending a = VectorAnswer.cpu_autovector a) := by
  refine ⟨?_, resolve_vector_autovector pending a h1 h2⟩
  intro h
  rw [h]
  exact resolve_vector_device pending

/-- Witness for C8: the fetch at 0xFFFFF9 with pending vector 0x45. -/
theorem vector_fetch_resolution_witness :
    resolve_vector vector_map 0x45 0xfffff9 = VectorAnswer.device_vector 0x45 :=
  (vector_fetch_resolution 0x45 0xfffff9 (by decide) (by decide)).1 rfl

/-- C9, as stated, fails: the disk controller asserts level 4, the vector-fetch address of
level 4 is 0xFFFFF9, and that address resolves to the device-vector handler of the serial
controller, not to the autovector table of the CPU. -/
theorem ata_vector_fetch_not_autovectored :
    machine.ata_irq_line = some 4
    ∧ iack_address 4 = 0xfffff9
    ∧ resolve_vector vector_map 0x45 (iack_address 4) = VectorAnswer.device_vector 0x45
    ∧ ¬ (resolve_vector vector_map 0x45 (iack_address 4)
          = VectorAnswer.cpu_autovector (iack_address 4)) := by
  decide

/-- C9, amended: the disk controller and the serial controller both assert priority level
4; the vector-fetch address of level 4 (0xFFFFF9) resolves to the device-vector handler of
the serial controller, which returns its pending vector; the vector-fetch addresses of
the other priority levels 1-3 and 5-7 resolve to the autovector table of the CPU. -/
theorem level4_vector_fetch_resolves_to_duart (pending level : Nat)
    (h1 : 1 ≤ level) (h2 : level ≤ 7) :
    machine.ata_irq_line = some 4
    ∧ machine.duart_irq_line = some 4
    ∧ resolve_vector vector_map pending (iack_address 4) = VectorAnswer.device_vector pending
    ∧ (level ≠ 4 → resolve_vector vector_map pending (iack_address level)
          = VectorAnswer.cpu_autovector (iack_address level)) := by
  refine ⟨rfl, rfl, resolve_vector_device pending, ?_⟩
  intro h4
  unfold iack_address
  exact resolve_vector_autovector pending _ (by omega) (by omega) (by omega)

/-- Witness for the amended C9: level 5 resolves to the autovector table. -/
theorem level4_vector_fetch_resolves_to_duart_witness :
    resolve_vector vector_map 0x45 (iack_address 4) = VectorAnswer.device_vector 0x45
    ∧ resolve_vector vector_map 0x45 (iack_address 5)
        = VectorAnswer.cpu_autovector (iack_address 5) :=
  have h := level4_vector_fetch_resolves_to_duart 0x45 5 (by decide) (by decide)
  ⟨h.2.2.1, h.2.2.2 (by decide)⟩

end RoscoM68k
